import Mathlib

/-!
Verification of the PathSeeker adaptive recursive scan engine (`main.go`).

The Go source is shallowly embedded: every pure helper becomes a Lean
function with the same structure, and the stateful scan loop (shared seen
set, dedup ledger, ancestry table, counters, bounded job queue) becomes an
explicit state-passing interpreter.  HTTP is abstracted by an environment
`HttpEnv : String → Option GoResp` mapping a URL to either a transport
failure (`none`) or a response carrying a status code and the digest of the
(256 KiB-truncated) response body; the sha1 hasher is abstracted by that
digest string, preserving the only property the scanner relies on
(equal bodies give equal digests).

Instrumentation fields (`requestLog`, `precheckLog`, `enqueuedLog`) record
which URLs the request executor and the reflective prechecker actually
fetched and which tasks were ever placed on the job queue; they are write
only traces and influence no control decision.
-/

/-! ## Go string primitives -/

/-- `listIsPfx pre l` is true when `pre` is a prefix of `l` (on raw chars). -/
def listIsPfx : List Char → List Char → Bool
  | [], _ => true
  | _ :: _, [] => false
  | a :: as, b :: bs => a == b && listIsPfx as bs

/-- Go `strings.HasPrefix(s, pre)`. -/
def goHasPfx (s pre : String) : Bool := listIsPfx pre.data s.data

/-- Go `strings.HasSuffix(s, suf)`. -/
def goHasSfx (s suf : String) : Bool := listIsPfx suf.data.reverse s.data.reverse

/-- Go `strings.TrimPrefix(s, pre)`: removes one leading occurrence. -/
def goTrimPfx (s pre : String) : String :=
  if goHasPfx s pre then String.mk (s.data.drop pre.data.length) else s

/-- Go `strings.TrimSuffix(s, suf)`: removes one trailing occurrence. -/
def goTrimSfx (s suf : String) : String :=
  if goHasSfx s suf then String.mk (s.data.take (s.data.length - suf.data.length)) else s

/-- Go `strings.TrimRight(s, "/")`: removes every trailing slash. -/
def goTrimRightSlashes (s : String) : String :=
  String.mk ((s.data.reverse.dropWhile (fun c => c == '/')).reverse)

/-- UTF-8 byte width of one character, as Go `len` counts it. -/
def charUtf8Len (c : Char) : Nat :=
  if c.toNat < 128 then 1 else if c.toNat < 2048 then 2
  else if c.toNat < 65536 then 3 else 4

/-- Go `len(s)`: the UTF-8 byte length of the string. -/
def goLen (s : String) : Nat := s.data.foldl (fun n c => n + charUtf8Len c) 0

/-! ## Go `path` package: `Clean` and `Join` -/

/-- Split a character list at every `'/'`, keeping empty segments. -/
def splitSegs : List Char → List (List Char)
  | [] => [[]]
  | c :: cs =>
    if c == '/' then [] :: splitSegs cs
    else
      match splitSegs cs with
      | [] => [[c]]
      | seg :: rest => (c :: seg) :: rest

/-- The segment-stack loop of Go `path.Clean`: drops empty and `"."`
segments, resolves `".."` against the stack (discarding it at the root of a
rooted path). -/
def cleanSegs (rooted : Bool) : List String → List String → List String
  | acc, [] => acc
  | acc, s :: rest =>
    if s = "" ∨ s = "." then cleanSegs rooted acc rest
    else if s = ".." then
      if acc ≠ [] ∧ acc.getLast? ≠ some ".." then cleanSegs rooted acc.dropLast rest
      else if rooted then cleanSegs rooted acc rest
      else cleanSegs rooted (acc ++ [".."]) rest
    else cleanSegs rooted (acc ++ [s]) rest

/-- Go `path.Clean`. -/
def goPathClean (p : String) : String :=
  if p = "" then "."
  else
    let rooted := goHasPfx p "/"
    let segs := (splitSegs p.data).map String.mk
    let joined := String.intercalate "/" (cleanSegs rooted [] segs)
    if rooted then (if joined = "" then "/" else "/" ++ joined)
    else (if joined = "" then "." else joined)

/-- The element-joining loop of Go `path.Join` (skips empty leading
elements, separates the rest with `'/'`). -/
def goJoinLoop : List String → String → String
  | [], buf => buf
  | e :: rest, buf =>
    if 0 < buf.length ∨ e ≠ "" then
      goJoinLoop rest (if 0 < buf.length then buf ++ "/" ++ e else buf ++ e)
    else goJoinLoop rest buf

/-- Go `path.Join(elems...)`. -/
def goPathJoin (elems : List String) : String :=
  if elems.all (fun e => e == "") then "" else goPathClean (goJoinLoop elems "")

/-! ## URL model (the `scheme://host/path` fragment used by the scanner) -/

/-- The parts of a parsed URL the scanner reads and writes
(`url.URL.Scheme`, `.Host`, `.Path`). -/
structure GoURL where
  scheme : String
  host : String
  path : String
deriving DecidableEq

/-- Split a char list at the first `'/'`; second part keeps the slash. -/
def splitFirstSlash : List Char → List Char × List Char
  | [] => ([], [])
  | c :: cs =>
    if c == '/' then ([], c :: cs)
    else
      let r := splitFirstSlash cs
      (c :: r.1, r.2)

/-- Split at the first `"://"`, returning the parts before and after it. -/
def findSchemeSep : List Char → Option (List Char × List Char)
  | [] => none
  | c :: cs =>
    if listIsPfx [':', '/', '/'] (c :: cs) then some ([], cs.drop 2)
    else
      match findSchemeSep cs with
      | some (a, b) => some (c :: a, b)
      | none => none

/-- Model of Go `url.Parse` on absolute `scheme://host/path` URLs, the only
shape the scanner constructs; anything without a `"://"` fails. -/
def parseURL (s : String) : Option GoURL :=
  match findSchemeSep s.data with
  | none => none
  | some (sch, rest) =>
    let hp := splitFirstSlash rest
    some { scheme := String.mk sch, host := String.mk hp.1, path := String.mk hp.2 }

/-- Model of Go `url.URL.String` for the subset above. -/
def urlToString (u : GoURL) : String := u.scheme ++ "://" ++ u.host ++ u.path

/-- `buildURL` from `main.go`: joins base path, accumulated prefix and the
probe word with `path.Join`, then forces or strips the trailing slash. -/
def buildURL (base pfx word : String) (withSlash : Bool) : Option String :=
  match parseURL base with
  | none => none
  | some u =>
    let p := goTrimSfx u.path "/"
    let joined := goPathJoin [p ++ "/", pfx, word]
    let joined :=
      if withSlash then (if goHasSfx joined "/" then joined else joined ++ "/")
      else goTrimSfx joined "/"
    some (urlToString { u with path := joined })

/-- `normalizeOutputURL` from `main.go`. -/
def normalizeOutputURL (u : String) : String :=
  if goHasSfx u "/" then
    (if goHasSfx u "://" then u else goTrimRightSlashes u)
  else u

example : buildURL "http://t/" "" "admin" false = some "http://t/admin" := by decide
example : buildURL "http://t/" "" "admin" true = some "http://t/admin/" := by decide
example : buildURL "http://t/" "a" "b" false = some "http://t/a/b" := by decide
example : goPathClean "///a//b/" = "/a/b" := by decide
example : goPathClean "/" = "/" := by decide
example : goPathJoin ["", "a", "b"] = "a/b" := by decide
example : normalizeOutputURL "http://t/a/" = "http://t/a" := by decide
example : parseURL "http://t/a" = some ⟨"http", "t", "/a"⟩ := by decide

/-! ## Scan data model -/

/-- An HTTP response as the scanner observes it: status code plus the
digest of the first 256 KiB of the body (sha1 abstracted by the digest
string itself). -/
structure GoResp where
  code : Nat
  bodyHash : String
deriving DecidableEq

/-- The network: `none` is a transport error (`client.Do` fails). -/
abbrev HttpEnv := String → Option GoResp

/-- `reqTask` from `main.go`. -/
structure reqTask where
  base : String
  pfx : String
  word : String
  depth : Nat
  withSlash : Bool
  errorCount : Nat
deriving DecidableEq

/-- Run-time configuration: the flag values `main` reads. -/
structure ScanConfig where
  base : String
  words : List String
  maxDepth : Nat
  excluded : List Nat
  recursive : Bool
  maxQueueSize : Nat

/-- The shared mutable scan state of `main`, plus write-only trace fields
(`requestLog`: URLs the request executor fetched, `precheckLog`: URLs the
reflective prechecker fetched, `enqueuedLog`: every task ever placed on the
job queue). -/
structure ScanState where
  seen : List String
  hits : Nat
  completed : Nat
  totalTasks : Nat
  droppedTasks : Nat
  pending : Nat
  hashBest : List (String × String)
  contentAncestors : List (String × List String)
  requestLog : List String
  precheckLog : List String
  enqueuedLog : List reqTask
deriving DecidableEq

/-- The all-empty state at run start. -/
def initState : ScanState :=
  { seen := [], hits := 0, completed := 0, totalTasks := 0, droppedTasks := 0,
    pending := 0, hashBest := [], contentAncestors := [], requestLog := [],
    precheckLog := [], enqueuedLog := [] }

/-- Go map lookup on an association list (model of `m[k]`). -/
def lookupAssoc {β : Type} : List (String × β) → String → Option β
  | [], _ => none
  | (k', v) :: rest, k => if k' == k then some v else lookupAssoc rest k

/-- Go map assignment on an association list (model of `m[k] = v`). -/
def insertAssoc {β : Type} : List (String × β) → String → β → List (String × β)
  | [], k, v => [(k, v)]
  | (k', v') :: rest, k, v =>
    if k' == k then (k, v) :: rest else (k', v') :: insertAssoc rest k v

/-! ## Request executor -/

/-- `requestURL` from `main.go`: the global at-most-once filter
(`seen.LoadOrStore`), one GET, fingerprint on 200, hit classification
against the exclusion set.  The returned triple is `(code, sum, ok)`. -/
def requestURL (cfg : ScanConfig) (env : HttpEnv) (s : ScanState)
    (fullURL : String) : (Nat × String × Bool) × ScanState :=
  if fullURL ∈ s.seen then ((0, "", false), s)
  else
    let s := { s with seen := fullURL :: s.seen,
                      requestLog := s.requestLog ++ [fullURL] }
    match env fullURL with
    | none => ((0, "", false), s)
    | some r =>
      let sum := if r.code == 200 then r.bodyHash else ""
      if r.code ∈ cfg.excluded then ((r.code, sum, false), s)
      else ((r.code, sum, true), { s with hits := s.hits + 1 })

/-! ## Loop guard (ancestry table) -/

/-- The hierarchy test inlined in `checkInfiniteLoop`: one path is a
segment-boundary ancestor of the other (the appended `"/"` forces the
prefix to end on a path-segment boundary). -/
def structRelated (p q : String) : Bool :=
  goHasPfx (p ++ "/") (q ++ "/") || goHasPfx (q ++ "/") (p ++ "/")

/-- `checkInfiniteLoop` from `main.go`: does any other recorded path for
this fingerprint sit above or below the current path? -/
def checkInfiniteLoop (tbl : List (String × List String))
    (contentHash currentPath : String) : Bool :=
  if contentHash == "" then false
  else
    match lookupAssoc tbl contentHash with
    | none => false
    | some paths =>
      paths.any (fun knownPath =>
        knownPath != currentPath && structRelated currentPath knownPath)

/-- `recordPathContent` from `main.go`: add `currentPath` to the set of
paths that produced `contentHash` (a no-op for an empty hash). -/
def recordPathContent (tbl : List (String × List String))
    (contentHash currentPath : String) : List (String × List String) :=
  if contentHash == "" then tbl
  else
    match lookupAssoc tbl contentHash with
    | none => insertAssoc tbl contentHash [currentPath]
    | some paths =>
      insertAssoc tbl contentHash
        (if currentPath ∈ paths then paths else paths ++ [currentPath])

/-! ## Dedup ledger -/

/-- The `hashBest` critical section from the worker: install the candidate
when no holder exists or it is strictly shorter (Go byte length), and
report whether the candidate is the holder afterwards. -/
def hashBestUpdate (hb : List (String × String)) (key norm : String) :
    List (String × String) × Bool :=
  match lookupAssoc hb key with
  | none => (insertAssoc hb key norm, true)
  | some best =>
    if goLen norm < goLen best then (insertAssoc hb key norm, true)
    else (hb, best == norm)

/-- The base path of the scan root (`baseURLParsed.Path` in `main`). -/
def basePathOf (cfg : ScanConfig) : String :=
  match parseURL cfg.base with
  | none => ""
  | some u => u.path

/-- The branch key computation from the worker: first path segment of the
normalized URL relative to the scan root (`strings.SplitN(rel, "/", 2)`). -/
def branchOf (basePath norm : String) : String :=
  match parseURL norm with
  | none => ""
  | some pu =>
    let rel := goTrimPfx (goTrimPfx pu.path basePath) "/"
    if rel ≠ "" then String.mk (rel.data.takeWhile (fun c => c != '/')) else ""

/-! ## Reflective-endpoint prechecker -/

/-- One nonce probe's outcome as `preCheckReflective` stores it. -/
structure TestResult where
  hash : String
  status : Nat
deriving DecidableEq

/-- The three improbable nonce words of `preCheckReflective`. -/
def testWords : List String := ["test123xyz", "random456abc", "check789def"]

/-- One iteration of the `preCheckReflective` probe loop: build the nonce
URL, fire it, and record the (hash, status) pair for a completed response
(hash only when the status is not 404), skipping build and transport
failures. -/
def precheckStep (env : HttpEnv) (baseURL pfx : String)
    (acc : List TestResult × List String) (tw : String) :
    List TestResult × List String :=
  match buildURL baseURL pfx tw false with
  | none => acc
  | some tu =>
    match env tu with
    | none => (acc.1, acc.2 ++ [tu])
    | some r =>
      let h := if r.code != 404 then r.bodyHash else ""
      (acc.1 ++ [⟨h, r.code⟩], acc.2 ++ [tu])

/-- The fetch loop of `preCheckReflective`: one GET per nonce word, plus
the list of URLs it attempted to fetch. -/
def precheckFetch (env : HttpEnv) (baseURL pfx : String) :
    List TestResult × List String :=
  testWords.foldl (precheckStep env baseURL pfx) ([], [])

/-- The verdict logic of `preCheckReflective` (`len >= 2`, first-result 404
bail-out, then all-same status and hash). -/
def reflectiveVerdict : List TestResult → Bool
  | r0 :: r1 :: rest =>
    if r0.status == 404 then false
    else (r1 :: rest).all (fun r => r.status == r0.status && r.hash == r0.hash)
  | _ => false

/-- `preCheckReflective` from `main.go`: fires the nonce probes through the
raw HTTP client (bypassing `requestURL`) and judges the collected results;
only the precheck trace changes. -/
def preCheckReflective (env : HttpEnv) (s : ScanState) (baseURL pfx : String) :
    Bool × ScanState :=
  let fr := precheckFetch env baseURL pfx
  (reflectiveVerdict fr.1, { s with precheckLog := s.precheckLog ++ fr.2 })

/-- Modelled from the spec's words for comparison with `reflectiveVerdict`
(claim C5): record only the non-404 results as comparable; not reflective
when fewer than two comparable results exist or every nonce returned 404;
reflective exactly when all comparable results agree on status and hash. -/
def reflectiveVerdictSpec (results : List TestResult) : Bool :=
  let comparable := results.filter (fun r => r.status != 404)
  if comparable.length < 2 ∨ results.all (fun r => r.status == 404) then false
  else
    match comparable with
    | [] => false
    | c0 :: rest => rest.all (fun r => r.status == c0.status && r.hash == c0.hash)

/-! ## Recursion controller and scheduler -/

/-- The error-budget transition in the worker: `0` after a 200, else the
parent's budget plus one. -/
def newErrorCount (code cur : Nat) : Nat := if code != 200 then cur + 1 else 0

/-- The backpressure-gated enqueue at the end of the worker: drop the whole
batch (counting it) when free queue capacity is below the fan-out,
otherwise enqueue one bare child per wordlist word. -/
def enqueueBatch (cfg : ScanConfig) (s : ScanState) (qlen : Nat) (t : reqTask)
    (nextPfx : String) (nec : Nat) : ScanState × List reqTask :=
  let add := cfg.words.length
  if (cfg.maxQueueSize : Int) - (qlen : Int) < (add : Int) then
    ({ s with droppedTasks := s.droppedTasks + add }, [])
  else
    let kids := cfg.words.map (fun w =>
      { base := t.base, pfx := nextPfx, word := w, depth := t.depth + 1,
        withSlash := false, errorCount := nec })
    ({ s with pending := s.pending + add, totalTasks := s.totalTasks + add,
              enqueuedLog := s.enqueuedLog ++ kids }, kids)

/-- The `shouldRecurse` initialization plus the content-hash pruning block
of the worker: for a 200 still eligible by error budget, push the candidate
through the dedup ledger and take the holder test as the new verdict;
otherwise the verdict is just the budget test. -/
def dedupStep (cfg : ScanConfig) (s : ScanState) (t : reqTask) (u : String)
    (code : Nat) (sum : String) : ScanState × Bool :=
  if code = 200 ∧ newErrorCount code t.errorCount < cfg.maxDepth then
    let norm := normalizeOutputURL u
    let branch := branchOf (basePathOf cfg) norm
    let key := branch ++ "|" ++ sum
    let r := hashBestUpdate s.hashBest key norm
    ({ s with hashBest := r.1 }, r.2)
  else (s, decide (newErrorCount code t.errorCount < cfg.maxDepth))

/-- The infinite-loop check block of the worker: a 200 with a nonempty
fingerprint that is still eligible loses its recursion verdict when
`checkInfiniteLoop` fires on its parsed path. -/
def loopVeto (ca : List (String × List String)) (u : String) (code : Nat)
    (sum : String) (sr1 : Bool) : Bool :=
  if code = 200 ∧ sum ≠ "" ∧ sr1 = true then
    match parseURL u with
    | none => sr1
    | some pu => if checkInfiniteLoop ca sum pu.path then false else sr1
  else sr1

/-- The recursion block of the worker (everything under
`if !t.withSlash && recursive`): exclusion re-check, error budget, dedup
ledger pruning for 200s, infinite-loop guard, reflective precheck at the
next level, then the backpressure-gated enqueue. -/
def decideAndSpawn (cfg : ScanConfig) (env : HttpEnv) (s : ScanState)
    (qlen : Nat) (t : reqTask) (u : String) (code : Nat) (sum : String) :
    ScanState × List reqTask :=
  if code ∈ cfg.excluded then (s, [])
  else
    let nec := newErrorCount code t.errorCount
    let st := dedupStep cfg s t u code sum
    let sr2 := loopVeto st.1.contentAncestors u code sum st.2
    if sr2 = true then
      let nextPfx := goPathJoin [t.pfx, t.word]
      let pc := preCheckReflective env st.1 t.base nextPfx
      if pc.1 then (pc.2, [])
      else enqueueBatch cfg pc.2 qlen t nextPfx nec
    else (st.1, [])

/-- The "record all 200 responses" step of the worker: a 200 with a
nonempty fingerprint adds its parsed path to the ancestry table. -/
def recordStep (s : ScanState) (u : String) (code : Nat) (sum : String) :
    ScanState :=
  if code = 200 ∧ sum ≠ "" then
    match parseURL u with
    | none => s
    | some pu =>
      { s with contentAncestors := recordPathContent s.contentAncestors sum pu.path }
  else s

/-- One worker iteration on one task: build the URL, fire it through the
request executor, record 200 content for the loop guard, then (bare task,
recursive mode only) run the recursion decision.  Returns the new state and
the children to enqueue. -/
def processTask (cfg : ScanConfig) (env : HttpEnv) (s : ScanState)
    (qlen : Nat) (t : reqTask) : ScanState × List reqTask :=
  let s0 := { s with completed := s.completed + 1, pending := s.pending - 1 }
  match buildURL t.base t.pfx t.word t.withSlash with
  | none => (s0, [])
  | some u =>
    let rr := requestURL cfg env s0 u
    let code := rr.1.1
    let sum := rr.1.2.1
    let ok := rr.1.2.2
    if ok = false then (rr.2, [])
    else
      let s2 := recordStep rr.2 u code sum
      if t.withSlash = false ∧ cfg.recursive = true then
        decideAndSpawn cfg env s2 qlen t u code sum
      else (s2, [])

/-- The scheduler loop, sequentialized: pop one task, run it, append its
children.  `fuel` bounds the number of iterations; a run that reaches the
empty queue has quiesced (pending zero in Go). -/
def runLoop (cfg : ScanConfig) (env : HttpEnv) :
    Nat → ScanState → List reqTask → ScanState
  | 0, s, _ => s
  | _ + 1, s, [] => s
  | fuel + 1, s, t :: rest =>
    let r := processTask cfg env s rest.length t
    runLoop cfg env fuel r.1 (rest ++ r.2)

/-- The seed tasks of `main`: one bare (no trailing slash) task per word. -/
def seedTasksOf (base : String) (words : List String) : List reqTask :=
  words.map (fun w =>
    { base := base, pfx := "", word := w, depth := 0, withSlash := false,
      errorCount := 0 })

/-- The scan driver of `main`: normalize the base, run the root-level
reflective precheck (abandoning the scan on a reflective verdict), seed the
queue and drive the workers to quiescence. -/
def mainScan (cfg : ScanConfig) (env : HttpEnv) (fuel : Nat) : ScanState :=
  let base := if goHasSfx cfg.base "/" then cfg.base else cfg.base ++ "/"
  let cfg := { cfg with base := base }
  let pc := preCheckReflective env initState base ""
  if pc.1 then pc.2
  else
    let seeds := seedTasksOf base cfg.words
    let s0 := { pc.2 with pending := seeds.length, totalTasks := seeds.length,
                          enqueuedLog := seeds }
    runLoop cfg env fuel s0 seeds

/-! ## Association-list lemmas (Go map model) -/

/-- The keys of an association list. -/
def assocKeys {β : Type} (l : List (String × β)) : List String := l.map Prod.fst

theorem lookupAssoc_insert_self {β : Type} (l : List (String × β)) (k : String) (v : β) :
    lookupAssoc (insertAssoc l k v) k = some v := by
  induction l with
  | nil => simp [insertAssoc, lookupAssoc]
  | cons hd tl ih =>
    rcases hd with ⟨k', v'⟩
    by_cases h : k' = k
    · simp [insertAssoc, lookupAssoc, h]
    · simp [insertAssoc, lookupAssoc, h, ih]

theorem insertAssoc_keys {β : Type} (l : List (String × β)) (k : String) (v : β) :
    assocKeys (insertAssoc l k v) =
      if k ∈ assocKeys l then assocKeys l else assocKeys l ++ [k] := by
  induction l with
  | nil => simp [insertAssoc, assocKeys]
  | cons hd tl ih =>
    rcases hd with ⟨k', v'⟩
    by_cases h : k' = k
    · simp [insertAssoc, assocKeys, h]
    · by_cases hm : k ∈ assocKeys tl
      · simp [insertAssoc, assocKeys, h, hm] at ih ⊢
        rw [ih]
        simp [assocKeys] at hm
        simp [hm]
      · simp [insertAssoc, assocKeys, h, Ne.symm h, hm] at ih ⊢
        rw [ih]
        simp [assocKeys] at hm
        simp [hm, Ne.symm h]

theorem insertAssoc_nodupKeys {β : Type} (l : List (String × β)) (k : String) (v : β)
    (h : (assocKeys l).Nodup) : (assocKeys (insertAssoc l k v)).Nodup := by
  rw [insertAssoc_keys]
  by_cases hm : k ∈ assocKeys l
  · simpa [hm] using h
  · simp only [hm, if_false]
    simp [List.nodup_append, h, hm]

/-! ## Claim C2: dedup ledger holder rule -/

/-- C2: for every (branch, fingerprint) key the dedup ledger `hashBest`
holds at most one URL (unique keys are preserved); an update installs the
candidate as holder iff no holder exists or the candidate is strictly
shorter in Go byte length (an equal-length later candidate never displaces
the holder), and recursion is permitted iff, after the update, the
candidate equals the holder for its key. -/
theorem dedupLedger_holderRule :
    (∀ hb key norm, lookupAssoc hb key = none →
       hashBestUpdate hb key norm = (insertAssoc hb key norm, true) ∧
       lookupAssoc (hashBestUpdate hb key norm).1 key = some norm) ∧
    (∀ hb key norm best, lookupAssoc hb key = some best →
       goLen norm < goLen best →
       lookupAssoc (hashBestUpdate hb key norm).1 key = some norm ∧
       (hashBestUpdate hb key norm).2 = true) ∧
    (∀ hb key norm best, lookupAssoc hb key = some best →
       ¬ goLen norm < goLen best →
       (hashBestUpdate hb key norm).1 = hb ∧
       ((hashBestUpdate hb key norm).2 = true ↔ norm = best)) ∧
    (∀ hb key norm,
       (hashBestUpdate hb key norm).2 = true ↔
       lookupAssoc (hashBestUpdate hb key norm).1 key = some norm) ∧
    (∀ hb key norm, (assocKeys hb).Nodup →
       (assocKeys (hashBestUpdate hb key norm).1).Nodup) := by
  refine ⟨?_, ?_, ?_, ?_, ?_⟩
  · intro hb key norm h
    unfold hashBestUpdate
    rw [h]
    exact ⟨rfl, lookupAssoc_insert_self hb key norm⟩
  · intro hb key norm best h hlt
    unfold hashBestUpdate
    rw [h]
    dsimp only
    rw [if_pos hlt]
    exact ⟨lookupAssoc_insert_self hb key norm, rfl⟩
  · intro hb key norm best h hge
    unfold hashBestUpdate
    rw [h]
    dsimp only
    rw [if_neg hge]
    refine ⟨rfl, ?_⟩
    rw [beq_iff_eq]
    exact eq_comm
  · intro hb key norm
    unfold hashBestUpdate
    rcases h : lookupAssoc hb key with _ | best
    · simp [lookupAssoc_insert_self]
    · dsimp only
      by_cases hlt : goLen norm < goLen best
      · simp [hlt, lookupAssoc_insert_self]
      · rw [if_neg hlt]
        dsimp only
        rw [h, beq_iff_eq, Option.some_inj]
  · intro hb key norm hnd
    unfold hashBestUpdate
    rcases h : lookupAssoc hb key with _ | best
    · exact insertAssoc_nodupKeys hb key norm hnd
    · by_cases hlt : goLen norm < goLen best
      · simpa [hlt] using insertAssoc_nodupKeys hb key norm hnd
      · simpa [hlt] using hnd

/-- Witness for C2 at concrete inputs: an empty ledger installs the
candidate, and an equal-length later candidate does not displace the
holder. -/
theorem dedupLedger_holderRule_witness :
    (hashBestUpdate [] "a|h" "http://t/bb" = ([("a|h", "http://t/bb")], true) ∧
       lookupAssoc (hashBestUpdate [] "a|h" "http://t/bb").1 "a|h" =
         some "http://t/bb") ∧
    ((hashBestUpdate [("a|h", "http://t/bb")] "a|h" "http://t/cc").1 =
       [("a|h", "http://t/bb")] ∧
     ((hashBestUpdate [("a|h", "http://t/bb")] "a|h" "http://t/cc").2 = true ↔
       "http://t/cc" = "http://t/bb")) ∧
    (lookupAssoc (hashBestUpdate [("a|h", "http://t/bb")] "a|h" "http://t/b").1
       "a|h" = some "http://t/b" ∧
     (hashBestUpdate [("a|h", "http://t/bb")] "a|h" "http://t/b").2 = true) :=
  ⟨dedupLedger_holderRule.1 [] "a|h" "http://t/bb" (by decide),
   dedupLedger_holderRule.2.2.1 [("a|h", "http://t/bb")] "a|h" "http://t/cc"
     "http://t/bb" (by decide) (by decide),
   dedupLedger_holderRule.2.1 [("a|h", "http://t/bb")] "a|h" "http://t/b"
     "http://t/bb" (by decide) (by decide)⟩

/-! ## Claim C7: backpressure batch policy -/

/-- C7: when the queue's free capacity (capacity minus current length) is
below the wordlist fan-out `W`, no child of the batch is enqueued and the
dropped counter grows by exactly `W`; otherwise all `W` children are
enqueued and the pending and total counters grow by exactly `W`.  A batch
is never partially enqueued. -/
theorem backpressure_batchRule (cfg : ScanConfig) (s : ScanState) (qlen : Nat)
    (t : reqTask) (nextPfx : String) (nec : Nat) :
    (((cfg.maxQueueSize : Int) - (qlen : Int) < (cfg.words.length : Int)) →
       (enqueueBatch cfg s qlen t nextPfx nec).2 = [] ∧
       (enqueueBatch cfg s qlen t nextPfx nec).1.droppedTasks =
         s.droppedTasks + cfg.words.length ∧
       (enqueueBatch cfg s qlen t nextPfx nec).1.totalTasks = s.totalTasks ∧
       (enqueueBatch cfg s qlen t nextPfx nec).1.pending = s.pending ∧
       (enqueueBatch cfg s qlen t nextPfx nec).1.enqueuedLog = s.enqueuedLog) ∧
    ((¬ ((cfg.maxQueueSize : Int) - (qlen : Int) < (cfg.words.length : Int))) →
       (enqueueBatch cfg s qlen t nextPfx nec).2.length = cfg.words.length ∧
       (enqueueBatch cfg s qlen t nextPfx nec).1.totalTasks =
         s.totalTasks + cfg.words.length ∧
       (enqueueBatch cfg s qlen t nextPfx nec).1.pending =
         s.pending + cfg.words.length ∧
       (enqueueBatch cfg s qlen t nextPfx nec).1.droppedTasks = s.droppedTasks ∧
       (enqueueBatch cfg s qlen t nextPfx nec).1.enqueuedLog =
         s.enqueuedLog ++ (enqueueBatch cfg s qlen t nextPfx nec).2) ∧
    ((enqueueBatch cfg s qlen t nextPfx nec).2 = [] ∨
       (enqueueBatch cfg s qlen t nextPfx nec).2.length = cfg.words.length) := by
  by_cases h : (cfg.maxQueueSize : Int) - (qlen : Int) < (cfg.words.length : Int)
  · refine ⟨fun _ => ?_, fun hc => absurd h hc, ?_⟩
    · simp [enqueueBatch, h]
    · left; simp [enqueueBatch, h]
  · refine ⟨fun hc => absurd hc h, fun _ => ?_, ?_⟩
    · simp [enqueueBatch, h]
    · right; simp [enqueueBatch, h]

/-- Witness for C7: with capacity 1, one task already queued and fan-out 2
the whole batch is dropped and counted; with ample capacity both children
are enqueued. -/
theorem backpressure_batchRule_witness :
    (((1 : Int) - (1 : Int) < ((["a", "b"] : List String).length : Int)) ∧
     (enqueueBatch
        { base := "http://t/", words := ["a", "b"], maxDepth := 1,
          excluded := [404], recursive := true, maxQueueSize := 1 }
        initState 1 ⟨"http://t/", "", "x", 0, false, 0⟩ "x" 0).2 = [] ∧
     (enqueueBatch
        { base := "http://t/", words := ["a", "b"], maxDepth := 1,
          excluded := [404], recursive := true, maxQueueSize := 1 }
        initState 1 ⟨"http://t/", "", "x", 0, false, 0⟩ "x" 0).1.droppedTasks =
       initState.droppedTasks + 2) :=
  ⟨by decide,
   ((backpressure_batchRule
      { base := "http://t/", words := ["a", "b"], maxDepth := 1,
        excluded := [404], recursive := true, maxQueueSize := 1 }
      initState 1 ⟨"http://t/", "", "x", 0, false, 0⟩ "x" 0).1 (by decide)).1,
   ((backpressure_batchRule
      { base := "http://t/", words := ["a", "b"], maxDepth := 1,
        excluded := [404], recursive := true, maxQueueSize := 1 }
      initState 1 ⟨"http://t/", "", "x", 0, false, 0⟩ "x" 0).1 (by decide)).2.1⟩

/-! ## Frame lemmas for the worker pipeline -/

theorem preCheckReflective_stateEq (env : HttpEnv) (s : ScanState) (b p : String) :
    (preCheckReflective env s b p).2 =
      { s with precheckLog := s.precheckLog ++ (precheckFetch env b p).2 } := rfl

theorem preCheck_seen (env : HttpEnv) (s : ScanState) (b p : String) :
    (preCheckReflective env s b p).2.seen = s.seen := rfl

theorem preCheck_requestLog (env : HttpEnv) (s : ScanState) (b p : String) :
    (preCheckReflective env s b p).2.requestLog = s.requestLog := rfl

theorem preCheck_enqueuedLog (env : HttpEnv) (s : ScanState) (b p : String) :
    (preCheckReflective env s b p).2.enqueuedLog = s.enqueuedLog := rfl

theorem enqueueBatch_seen (cfg : ScanConfig) (s : ScanState) (qlen : Nat)
    (t : reqTask) (n : String) (e : Nat) :
    (enqueueBatch cfg s qlen t n e).1.seen = s.seen := by
  unfold enqueueBatch; dsimp only; split <;> rfl

theorem enqueueBatch_requestLog (cfg : ScanConfig) (s : ScanState) (qlen : Nat)
    (t : reqTask) (n : String) (e : Nat) :
    (enqueueBatch cfg s qlen t n e).1.requestLog = s.requestLog := by
  unfold enqueueBatch; dsimp only; split <;> rfl

theorem dedupStep_seen (cfg : ScanConfig) (s : ScanState) (t : reqTask)
    (u : String) (code : Nat) (sum : String) :
    (dedupStep cfg s t u code sum).1.seen = s.seen := by
  unfold dedupStep; split <;> rfl

theorem dedupStep_requestLog (cfg : ScanConfig) (s : ScanState) (t : reqTask)
    (u : String) (code : Nat) (sum : String) :
    (dedupStep cfg s t u code sum).1.requestLog = s.requestLog := by
  unfold dedupStep; split <;> rfl

theorem dedupStep_contentAncestors (cfg : ScanConfig) (s : ScanState)
    (t : reqTask) (u : String) (code : Nat) (sum : String) :
    (dedupStep cfg s t u code sum).1.contentAncestors = s.contentAncestors := by
  unfold dedupStep; split <;> rfl

theorem dedupStep_enqueuedLog (cfg : ScanConfig) (s : ScanState) (t : reqTask)
    (u : String) (code : Nat) (sum : String) :
    (dedupStep cfg s t u code sum).1.enqueuedLog = s.enqueuedLog := by
  unfold dedupStep; split <;> rfl

theorem dedupStep_budget (cfg : ScanConfig) (s : ScanState) (t : reqTask)
    (u : String) (code : Nat) (sum : String) :
    (dedupStep cfg s t u code sum).2 = true →
    newErrorCount code t.errorCount < cfg.maxDepth := by
  unfold dedupStep
  split
  · next h => intro _; exact h.2
  · intro hd; exact of_decide_eq_true hd

theorem checkInfiniteLoop_hash_ne (tbl : List (String × List String))
    (h p : String) (hl : checkInfiniteLoop tbl h p = true) : h ≠ "" := by
  intro he
  rw [he] at hl
  simp [checkInfiniteLoop] at hl

theorem loopVeto_true (ca : List (String × List String)) (u : String)
    (code : Nat) (sum : String) (sr1 : Bool) :
    loopVeto ca u code sum sr1 = true → sr1 = true := by
  unfold loopVeto
  split
  · rcases hp : parseURL u with _ | pu
    · intro hv; exact hv
    · dsimp only
      split
      · intro hf; exact Bool.noConfusion hf
      · intro hv; exact hv
  · intro hv; exact hv

theorem loopVeto_fires (ca : List (String × List String)) (u : String)
    (code : Nat) (sum : String) (sr1 : Bool) (hc : code = 200) (pu : GoURL)
    (hp : parseURL u = some pu) (hl : checkInfiniteLoop ca sum pu.path = true) :
    loopVeto ca u code sum sr1 = false := by
  have hsum : sum ≠ "" := checkInfiniteLoop_hash_ne ca sum pu.path hl
  cases sr1
  · simp [loopVeto]
  · simp [loopVeto, hc, hsum, hp, hl]

theorem enqueueBatch_enqLogMem (cfg : ScanConfig) (s : ScanState) (qlen : Nat)
    (t : reqTask) (n : String) (e : Nat) :
    ∀ c ∈ (enqueueBatch cfg s qlen t n e).1.enqueuedLog,
      c ∈ s.enqueuedLog ∨ c.withSlash = false := by
  unfold enqueueBatch
  dsimp only
  split
  · intro c hc; exact Or.inl hc
  · intro c hc
    rcases List.mem_append.1 hc with h | h
    · exact Or.inl h
    · rcases List.mem_map.1 h with ⟨w, -, rfl⟩
      exact Or.inr rfl

theorem decideAndSpawn_seen (cfg : ScanConfig) (env : HttpEnv) (s : ScanState)
    (qlen : Nat) (t : reqTask) (u : String) (code : Nat) (sum : String) :
    (decideAndSpawn cfg env s qlen t u code sum).1.seen = s.seen := by
  unfold decideAndSpawn
  split
  · rfl
  · dsimp only
    split
    · split
      · rw [preCheck_seen, dedupStep_seen]
      · rw [enqueueBatch_seen, preCheck_seen, dedupStep_seen]
    · rw [dedupStep_seen]

theorem decideAndSpawn_requestLog (cfg : ScanConfig) (env : HttpEnv)
    (s : ScanState) (qlen : Nat) (t : reqTask) (u : String) (code : Nat)
    (sum : String) :
    (decideAndSpawn cfg env s qlen t u code sum).1.requestLog = s.requestLog := by
  unfold decideAndSpawn
  split
  · rfl
  · dsimp only
    split
    · split
      · rw [preCheck_requestLog, dedupStep_requestLog]
      · rw [enqueueBatch_requestLog, preCheck_requestLog, dedupStep_requestLog]
    · rw [dedupStep_requestLog]

theorem decideAndSpawn_enqLogMem (cfg : ScanConfig) (env : HttpEnv)
    (s : ScanState) (qlen : Nat) (t : reqTask) (u : String) (code : Nat)
    (sum : String) :
    ∀ c ∈ (decideAndSpawn cfg env s qlen t u code sum).1.enqueuedLog,
      c ∈ s.enqueuedLog ∨ c.withSlash = false := by
  unfold decideAndSpawn
  split
  · intro c hc; exact Or.inl hc
  · dsimp only
    split
    · split
      · intro c hc
        rw [preCheck_enqueuedLog, dedupStep_enqueuedLog] at hc
        exact Or.inl hc
      · intro c hc
        rcases enqueueBatch_enqLogMem _ _ _ _ _ _ c hc with h | h
        · rw [preCheck_enqueuedLog, dedupStep_enqueuedLog] at h
          exact Or.inl h
        · exact Or.inr h
    · intro c hc
      rw [dedupStep_enqueuedLog] at hc
      exact Or.inl hc

theorem decideAndSpawn_kids (cfg : ScanConfig) (env : HttpEnv) (s : ScanState)
    (qlen : Nat) (t : reqTask) (u : String) (code : Nat) (sum : String) :
    ∀ c ∈ (decideAndSpawn cfg env s qlen t u code sum).2,
      c.errorCount = newErrorCount code t.errorCount ∧
      newErrorCount code t.errorCount < cfg.maxDepth := by
  unfold decideAndSpawn
  split
  · intro c hc; exact absurd hc (List.not_mem_nil c)
  · dsimp only
    split
    · next hsr2 =>
      have hsr1 : (dedupStep cfg s t u code sum).2 = true :=
        loopVeto_true _ _ _ _ _ hsr2
      have hbudget := dedupStep_budget cfg s t u code sum hsr1
      split
      · intro c hc; exact absurd hc (List.not_mem_nil c)
      · intro c hc
        refine ⟨?_, hbudget⟩
        unfold enqueueBatch at hc
        dsimp only at hc
        split at hc
        · exact absurd hc (List.not_mem_nil c)
        · rcases List.mem_map.1 hc with ⟨w, -, rfl⟩
          rfl
    · intro c hc; exact absurd hc (List.not_mem_nil c)

theorem decideAndSpawn_loopVetoed (cfg : ScanConfig) (env : HttpEnv)
    (s : ScanState) (qlen : Nat) (t : reqTask) (u : String) (code : Nat)
    (sum : String) (pu : GoURL) (hc : code = 200) (hp : parseURL u = some pu)
    (hl : checkInfiniteLoop s.contentAncestors sum pu.path = true) :
    (decideAndSpawn cfg env s qlen t u code sum).2 = [] := by
  unfold decideAndSpawn
  split
  · rfl
  · dsimp only
    have hLV : loopVeto (dedupStep cfg s t u code sum).1.contentAncestors u
        code sum (dedupStep cfg s t u code sum).2 = false := by
      rw [dedupStep_contentAncestors]
      exact loopVeto_fires _ _ _ _ _ hc pu hp hl
    rw [hLV]
    simp

theorem decideAndSpawn_reflVetoed (cfg : ScanConfig) (env : HttpEnv)
    (s : ScanState) (qlen : Nat) (t : reqTask) (u : String) (code : Nat)
    (sum : String)
    (hr : reflectiveVerdict
        (precheckFetch env t.base (goPathJoin [t.pfx, t.word])).1 = true) :
    (decideAndSpawn cfg env s qlen t u code sum).2 = [] := by
  unfold decideAndSpawn
  split
  · rfl
  · dsimp only
    split
    · split
      · rfl
      · next hpc => exact absurd hr hpc
    · rfl

/-! ## Claim C6: loop guard -/

/-- C6: the loop guard fires on fingerprint `h` at path `p` iff the
ancestry table already records some other path `q ≠ p` for `h` with `p` a
segment-boundary ancestor or descendant of `q` (so `/a/b` relates to
`/a/b/c` but not to `/a/bc`); an empty fingerprint never vetoes, and for a
200 response the firing guard suppresses every child task. -/
theorem loopGuard_structuralVeto :
    (∀ tbl h p, checkInfiniteLoop tbl h p = true ↔
       (h ≠ "" ∧ ∃ q, q ∈ (lookupAssoc tbl h).getD [] ∧ q ≠ p ∧
          structRelated p q = true)) ∧
    structRelated "/a/b" "/a/b/c" = true ∧
    structRelated "/a/b" "/a/bc" = false ∧
    (∀ tbl p, checkInfiniteLoop tbl "" p = false) ∧
    (∀ cfg env s qlen t u code sum pu, code = 200 → parseURL u = some pu →
       checkInfiniteLoop s.contentAncestors sum pu.path = true →
       (decideAndSpawn cfg env s qlen t u code sum).2 = []) := by
  refine ⟨?_, by decide, by decide, ?_, ?_⟩
  · intro tbl h p
    unfold checkInfiniteLoop
    by_cases hh : h = ""
    · subst hh; simp
    · rw [if_neg (by simpa using hh)]
      rcases hl : lookupAssoc tbl h with _ | paths
      · simp [hh]
      · dsimp only
        rw [List.any_eq_true]
        constructor
        · rintro ⟨q, hq, hqp⟩
          rw [Bool.and_eq_true, bne_iff_ne] at hqp
          exact ⟨hh, q, hq, hqp.1, hqp.2⟩
        · rintro ⟨-, q, hq, hne, hrel⟩
          refine ⟨q, hq, ?_⟩
          rw [Bool.and_eq_true, bne_iff_ne]
          exact ⟨hne, hrel⟩
  · intro tbl p; unfold checkInfiniteLoop; simp
  · intro cfg env s qlen t u code sum pu hc hp hl
    exact decideAndSpawn_loopVetoed cfg env s qlen t u code sum pu hc hp hl

/-- Witness for C6: a table recording content `h` at `/a/b` makes the guard
fire at descendant path `/a/b/c` and suppress the batch. -/
theorem loopGuard_structuralVeto_witness :
    checkInfiniteLoop [("h", ["/a/b"])] "h" "/a/b/c" = true ∧
    ("h" ≠ "" ∧ ∃ q, q ∈ (lookupAssoc [("h", ["/a/b"])] "h").getD [] ∧
       q ≠ "/a/b/c" ∧ structRelated "/a/b/c" q = true) :=
  ⟨by decide,
   (loopGuard_structuralVeto.1 [("h", ["/a/b"])] "h" "/a/b/c").1 (by decide)⟩

/-! ## Claim C5: reflective prechecker (corrected) -/

/-- The nonce responses of the counterexample run: the first nonce returns
404 while the other two return identical 200 content. -/
def envMixed404 : HttpEnv := fun u =>
  if u = "http://t/test123xyz" then some ⟨404, ""⟩
  else if u = "http://t/random456abc" then some ⟨200, "h"⟩
  else if u = "http://t/check789def" then some ⟨200, "h"⟩
  else none

/-- Counterexample to C5 as stated: with nonce outcomes (404), (200, h),
(200, h) the two comparable (non-404) results exist and agree, so the
claimed rule declares "reflective", but the code's prechecker bails out on
the first recorded result being a 404 and declares "not reflective". -/
theorem precheck_claim_counterexample :
    (preCheckReflective envMixed404 initState "http://t/" "").1 = false ∧
    reflectiveVerdictSpec (precheckFetch envMixed404 "http://t/" "").1 = true := by
  decide

theorem precheckFetch_log (env : HttpEnv) (b p : String) :
    ∀ (ws : List String) (acc : List TestResult × List String),
      (ws.foldl (precheckStep env b p) acc).2 =
        acc.2 ++ ws.filterMap (fun w => buildURL b p w false) := by
  intro ws
  induction ws with
  | nil => intro acc; simp
  | cons w rest ih =>
    intro acc
    rw [List.foldl_cons, List.filterMap_cons, ih]
    rcases hb : buildURL b p w false with _ | tu
    · simp [precheckStep, hb]
    · rcases he : env tu with _ | r <;> simp [precheckStep, hb, he]

/-- C5 amended: the prechecker records a (status, fingerprint) pair for
every completed nonce response (with an empty fingerprint for 404s, not
only for non-404s); it declares "not reflective" when fewer than two
results were collected or when the FIRST collected result has status 404
(not "when every nonce returned 404"); otherwise it declares "reflective"
exactly when every later result matches the first's status and
fingerprint.  The nonce URLs are the three `testWords` probes, and a
reflective verdict suppresses the whole child batch of the branch. -/
theorem precheck_codeBehavior :
    (∀ r0 rest, reflectiveVerdict (r0 :: rest) = true ↔
       (rest ≠ [] ∧ r0.status ≠ 404 ∧
        ∀ r ∈ rest, r.status = r0.status ∧ r.hash = r0.hash)) ∧
    (∀ rs, rs.length < 2 → reflectiveVerdict rs = false) ∧
    (∀ env b p, (precheckFetch env b p).2 =
       testWords.filterMap (fun w => buildURL b p w false)) ∧
    (∀ env s b p, (preCheckReflective env s b p).1 =
       reflectiveVerdict (precheckFetch env b p).1) ∧
    (∀ cfg env s qlen t u code sum,
       reflectiveVerdict
           (precheckFetch env t.base (goPathJoin [t.pfx, t.word])).1 = true →
       (decideAndSpawn cfg env s qlen t u code sum).2 = []) := by
  refine ⟨?_, ?_, ?_, ?_, ?_⟩
  · intro r0 rest
    cases rest with
    | nil => simp [reflectiveVerdict]
    | cons r1 rest' =>
      by_cases h404 : r0.status = 404
      · simp [reflectiveVerdict, h404]
      · simp [reflectiveVerdict, h404, List.all_eq_true, and_comm]
  · intro rs hlen
    match rs, hlen with
    | [], _ => rfl
    | [r], _ => rfl
  · intro env b p
    exact precheckFetch_log env b p testWords ([], [])
  · intro env s b p; rfl
  · intro cfg env s qlen t u code sum hr
    exact decideAndSpawn_reflVetoed cfg env s qlen t u code sum hr

/-- Witness for C5's amended theorem: two identical (200, h) results yield
a reflective verdict, and that verdict suppresses a concrete batch. -/
theorem precheck_codeBehavior_witness :
    reflectiveVerdict [⟨"h", 200⟩, ⟨"h", 200⟩] = true :=
  (precheck_codeBehavior.1 ⟨"h", 200⟩ [⟨"h", 200⟩]).2 (by decide)

/-! ## Claim C4: error-tolerance boundary -/

/-- A target serving a 200 at `/a` and non-200 (500) everywhere deeper
along the single-word branch; nonce probes fail at the transport level. -/
def envLinear : HttpEnv := fun u =>
  if u = "http://t/a" then some ⟨200, "h0"⟩
  else if u = "http://t/a/a" then some ⟨500, ""⟩
  else if u = "http://t/a/a/a" then some ⟨500, ""⟩
  else if u = "http://t/a/a/a/a" then some ⟨500, ""⟩
  else none

/-- Recursive single-word configuration with error tolerance `n`. -/
def cfgTol (n : Nat) : ScanConfig :=
  { base := "http://t/", words := ["a"], maxDepth := n, excluded := [404],
    recursive := true, maxQueueSize := 100 }

/-- C4: with tolerance N ∈ {1,2,3}, a branch whose every response after the
initiating 200 is non-200 is expanded exactly N levels past the initiating
request: the run issues the initiating request plus N deeper ones (N+1
tasks in total) and then stops. -/
theorem errorTolerance_boundary :
    ((mainScan (cfgTol 1) envLinear 20).requestLog =
       ["http://t/a", "http://t/a/a"] ∧
     (mainScan (cfgTol 1) envLinear 20).totalTasks = 1 + 1) ∧
    ((mainScan (cfgTol 2) envLinear 20).requestLog =
       ["http://t/a", "http://t/a/a", "http://t/a/a/a"] ∧
     (mainScan (cfgTol 2) envLinear 20).totalTasks = 1 + 2) ∧
    ((mainScan (cfgTol 3) envLinear 20).requestLog =
       ["http://t/a", "http://t/a/a", "http://t/a/a/a", "http://t/a/a/a/a"] ∧
     (mainScan (cfgTol 3) envLinear 20).totalTasks = 1 + 3) := by
  decide

/-! ## Claim C3: error-budget transition -/

/-- C3: every child a task spawns was produced after a non-excluded
response (the executor returned `ok = true`), carries error budget 0 when
that response was a 200 and the parent's budget plus one otherwise, and
children exist only when that new budget is strictly below the configured
error tolerance. -/
theorem errorBudget_childRule (cfg : ScanConfig) (env : HttpEnv)
    (s : ScanState) (qlen : Nat) (t : reqTask) :
    ∀ c ∈ (processTask cfg env s qlen t).2,
      ∃ u code sum s1,
        buildURL t.base t.pfx t.word t.withSlash = some u ∧
        requestURL cfg env
          { s with completed := s.completed + 1, pending := s.pending - 1 } u =
          ((code, sum, true), s1) ∧
        c.errorCount = newErrorCount code t.errorCount ∧
        newErrorCount code t.errorCount < cfg.maxDepth := by
  intro c hc
  unfold processTask at hc
  dsimp only at hc
  cases hb : buildURL t.base t.pfx t.word t.withSlash with
  | none =>
    rw [hb] at hc
    exact absurd hc (List.not_mem_nil c)
  | some u =>
    rw [hb] at hc
    dsimp only at hc
    split at hc
    · exact absurd hc (List.not_mem_nil c)
    · next hok =>
      split at hc
      · obtain ⟨h1, h2⟩ := decideAndSpawn_kids _ _ _ _ _ _ _ _ c hc
        refine ⟨u,
          (requestURL cfg env
            { s with completed := s.completed + 1, pending := s.pending - 1 } u).1.1,
          (requestURL cfg env
            { s with completed := s.completed + 1, pending := s.pending - 1 } u).1.2.1,
          (requestURL cfg env
            { s with completed := s.completed + 1, pending := s.pending - 1 } u).2,
          rfl, ?_, h1, h2⟩
        have hoktrue : (requestURL cfg env
            { s with completed := s.completed + 1, pending := s.pending - 1 } u).1.2.2 =
            true := by
          cases hval : (requestURL cfg env
              { s with completed := s.completed + 1, pending := s.pending - 1 } u).1.2.2
          · exact absurd hval hok
          · rfl
        rw [← hoktrue]
      · exact absurd hc (List.not_mem_nil c)

/-- Witness for C3: with tolerance 1 the 200 at `/a` spawns a single child
probing `/a/a` with a reset error budget of 0. -/
theorem errorBudget_childRule_witness :
    (⟨"http://t/", "a", "a", 1, false, 0⟩ : reqTask) ∈
      (processTask (cfgTol 1) envLinear initState 0
        ⟨"http://t/", "", "a", 0, false, 0⟩).2 ∧
    ∃ u code sum s1,
      buildURL "http://t/" "" "a" false = some u ∧
      requestURL (cfgTol 1) envLinear
        { initState with completed := initState.completed + 1,
                         pending := initState.pending - 1 } u =
        ((code, sum, true), s1) ∧
      (⟨"http://t/", "a", "a", 1, false, 0⟩ : reqTask).errorCount =
        newErrorCount code 0 ∧
      newErrorCount code 0 < (cfgTol 1).maxDepth :=
  ⟨by decide,
   errorBudget_childRule (cfgTol 1) envLinear initState 0
     ⟨"http://t/", "", "a", 0, false, 0⟩
     ⟨"http://t/", "a", "a", 1, false, 0⟩ (by decide)⟩

/-! ## Request-executor lemmas -/

theorem requestURL_skip (cfg : ScanConfig) (env : HttpEnv) (s : ScanState)
    (u : String) (h : u ∈ s.seen) :
    requestURL cfg env s u = ((0, "", false), s) := by
  unfold requestURL
  rw [if_pos h]

theorem requestURL_seen (cfg : ScanConfig) (env : HttpEnv) (s : ScanState)
    (u : String) :
    (requestURL cfg env s u).2.seen =
      if u ∈ s.seen then s.seen else u :: s.seen := by
  unfold requestURL
  by_cases h : u ∈ s.seen
  · rw [if_pos h, if_pos h]
  · rw [if_neg h, if_neg h]
    dsimp only
    cases env u with
    | none => rfl
    | some r => dsimp only; split <;> rfl

theorem requestURL_requestLog (cfg : ScanConfig) (env : HttpEnv)
    (s : ScanState) (u : String) :
    (requestURL cfg env s u).2.requestLog =
      if u ∈ s.seen then s.requestLog else s.requestLog ++ [u] := by
  unfold requestURL
  by_cases h : u ∈ s.seen
  · rw [if_pos h, if_pos h]
  · rw [if_neg h, if_neg h]
    dsimp only
    cases env u with
    | none => rfl
    | some r => dsimp only; split <;> rfl

/-- The hit-counter contribution of one fresh fetch: 1 when a response
arrived with a non-excluded status, else 0. -/
def hitDelta (cfg : ScanConfig) (env : HttpEnv) (u : String) : Nat :=
  match env u with
  | none => 0
  | some r => if r.code ∈ cfg.excluded then 0 else 1

theorem requestURL_hits (cfg : ScanConfig) (env : HttpEnv) (s : ScanState)
    (u : String) (h : u ∉ s.seen) :
    (requestURL cfg env s u).2.hits = s.hits + hitDelta cfg env u := by
  unfold requestURL hitDelta
  rw [if_neg h]
  dsimp only
  cases env u with
  | none => simp
  | some r => dsimp only; split <;> simp

theorem requestURL_frame (cfg : ScanConfig) (env : HttpEnv) (s : ScanState)
    (u : String) :
    (requestURL cfg env s u).2.totalTasks = s.totalTasks ∧
    (requestURL cfg env s u).2.droppedTasks = s.droppedTasks ∧
    (requestURL cfg env s u).2.pending = s.pending ∧
    (requestURL cfg env s u).2.completed = s.completed ∧
    (requestURL cfg env s u).2.enqueuedLog = s.enqueuedLog ∧
    (requestURL cfg env s u).2.precheckLog = s.precheckLog ∧
    (requestURL cfg env s u).2.hashBest = s.hashBest ∧
    (requestURL cfg env s u).2.contentAncestors = s.contentAncestors := by
  unfold requestURL
  split
  · exact ⟨rfl, rfl, rfl, rfl, rfl, rfl, rfl, rfl⟩
  · dsimp only
    cases env u with
    | none => exact ⟨rfl, rfl, rfl, rfl, rfl, rfl, rfl, rfl⟩
    | some r =>
      dsimp only
      split <;> exact ⟨rfl, rfl, rfl, rfl, rfl, rfl, rfl, rfl⟩

theorem recordStep_frame (s : ScanState) (u : String) (code : Nat)
    (sum : String) :
    (recordStep s u code sum).seen = s.seen ∧
    (recordStep s u code sum).requestLog = s.requestLog ∧
    (recordStep s u code sum).hits = s.hits ∧
    (recordStep s u code sum).totalTasks = s.totalTasks ∧
    (recordStep s u code sum).droppedTasks = s.droppedTasks ∧
    (recordStep s u code sum).pending = s.pending ∧
    (recordStep s u code sum).completed = s.completed ∧
    (recordStep s u code sum).enqueuedLog = s.enqueuedLog ∧
    (recordStep s u code sum).hashBest = s.hashBest ∧
    (recordStep s u code sum).precheckLog = s.precheckLog := by
  unfold recordStep
  split
  · cases parseURL u <;> exact ⟨rfl, rfl, rfl, rfl, rfl, rfl, rfl, rfl, rfl, rfl⟩
  · exact ⟨rfl, rfl, rfl, rfl, rfl, rfl, rfl, rfl, rfl, rfl⟩

/-! ## Scheduler-loop invariants -/

theorem runLoop_nil (cfg : ScanConfig) (env : HttpEnv) :
    ∀ fuel s, runLoop cfg env fuel s [] = s := by
  intro fuel s
  cases fuel <;> rfl

theorem runLoop_inv (cfg : ScanConfig) (env : HttpEnv) (P : ScanState → Prop)
    (hstep : ∀ s qlen t, P s → P (processTask cfg env s qlen t).1) :
    ∀ fuel s q, P s → P (runLoop cfg env fuel s q) := by
  intro fuel
  induction fuel with
  | zero => intro s q h; exact h
  | succ n ih =>
    intro s q h
    cases q with
    | nil => exact h
    | cons t rest => exact ih _ _ (hstep s rest.length t h)

/-- The at-most-once invariant: every URL the executor ever fetched is in
the seen set, and the fetch log has no duplicates. -/
def seenInv (s : ScanState) : Prop :=
  s.requestLog.Nodup ∧ ∀ v ∈ s.requestLog, v ∈ s.seen

/-- Every task in the enqueue trace is a bare (no trailing slash) probe. -/
def bareInv (s : ScanState) : Prop :=
  ∀ c ∈ s.enqueuedLog, c.withSlash = false

theorem processTask_log_seen (cfg : ScanConfig) (env : HttpEnv)
    (s : ScanState) (qlen : Nat) (t : reqTask) :
    ((processTask cfg env s qlen t).1.requestLog = s.requestLog ∧
     (processTask cfg env s qlen t).1.seen = s.seen) ∨
    (∃ u, u ∉ s.seen ∧
     (processTask cfg env s qlen t).1.requestLog = s.requestLog ++ [u] ∧
     (processTask cfg env s qlen t).1.seen = u :: s.seen) := by
  unfold processTask
  dsimp only
  cases hb : buildURL t.base t.pfx t.word t.withSlash with
  | none => left; exact ⟨rfl, rfl⟩
  | some u =>
    dsimp only
    by_cases hmem : u ∈ s.seen
    · left
      have hskip := requestURL_skip cfg env
        { s with completed := s.completed + 1, pending := s.pending - 1 } u hmem
      rw [hskip]
      exact ⟨rfl, rfl⟩
    · right
      refine ⟨u, hmem, ?_, ?_⟩
      · have hlog : (requestURL cfg env
            { s with completed := s.completed + 1, pending := s.pending - 1 }
            u).2.requestLog = s.requestLog ++ [u] := by
          rw [requestURL_requestLog, if_neg hmem]
        split
        · exact hlog
        · split
          · rw [decideAndSpawn_requestLog, (recordStep_frame _ _ _ _).2.1]
            exact hlog
          · rw [(recordStep_frame _ _ _ _).2.1]
            exact hlog
      · have hse : (requestURL cfg env
            { s with completed := s.completed + 1, pending := s.pending - 1 }
            u).2.seen = u :: s.seen := by
          rw [requestURL_seen, if_neg hmem]
        split
        · exact hse
        · split
          · rw [decideAndSpawn_seen, (recordStep_frame _ _ _ _).1]
            exact hse
          · rw [(recordStep_frame _ _ _ _).1]
            exact hse

theorem processTask_seenInv (cfg : ScanConfig) (env : HttpEnv) (s : ScanState)
    (qlen : Nat) (t : reqTask) (h : seenInv s) :
    seenInv (processTask cfg env s qlen t).1 := by
  rcases processTask_log_seen cfg env s qlen t with ⟨hl, hs⟩ | ⟨u, hu, hl, hs⟩
  · refine ⟨?_, ?_⟩
    · rw [hl]; exact h.1
    · intro v hv
      rw [hl] at hv
      rw [hs]
      exact h.2 v hv
  · refine ⟨?_, ?_⟩
    · rw [hl]
      have hnotin : u ∉ s.requestLog := fun hmem => hu (h.2 u hmem)
      simp [List.nodup_append, h.1, hnotin]
    · intro v hv
      rw [hl] at hv
      rw [hs]
      rcases List.mem_append.1 hv with hv | hv
      · exact List.mem_cons_of_mem u (h.2 v hv)
      · rw [List.mem_singleton.1 hv]
        exact List.mem_cons_self u s.seen

theorem processTask_enqLogMem (cfg : ScanConfig) (env : HttpEnv)
    (s : ScanState) (qlen : Nat) (t : reqTask) :
    ∀ c ∈ (processTask cfg env s qlen t).1.enqueuedLog,
      c ∈ s.enqueuedLog ∨ c.withSlash = false := by
  unfold processTask
  dsimp only
  cases hb : buildURL t.base t.pfx t.word t.withSlash with
  | none => intro c hc; exact Or.inl hc
  | some u =>
    dsimp only
    intro c hc
    have hreq : (requestURL cfg env
        { s with completed := s.completed + 1, pending := s.pending - 1 }
        u).2.enqueuedLog = s.enqueuedLog :=
      (requestURL_frame cfg env _ u).2.2.2.2.1
    split at hc
    · rw [hreq] at hc; exact Or.inl hc
    · split at hc
      · rcases decideAndSpawn_enqLogMem _ env _ qlen t u _ _ c hc with hm | hm
        · rw [(recordStep_frame _ _ _ _).2.2.2.2.2.2.2.1, hreq] at hm
          exact Or.inl hm
        · exact Or.inr hm
      · rw [(recordStep_frame _ _ _ _).2.2.2.2.2.2.2.1, hreq] at hc
        exact Or.inl hc

theorem processTask_bareInv (cfg : ScanConfig) (env : HttpEnv) (s : ScanState)
    (qlen : Nat) (t : reqTask) (h : bareInv s) :
    bareInv (processTask cfg env s qlen t).1 := by
  intro c hc
  rcases processTask_enqLogMem cfg env s qlen t c hc with hm | hm
  · exact h c hm
  · exact hm

/-! ## Claim C1: at-most-once request executor -/

/-- C1: a URL already in the global seen set makes `requestURL` return the
skipped result (code 0, empty fingerprint, not a hit) with the state
untouched — in particular without logging a fetch; a fresh URL is inserted
into the seen set by its first call; and across any entire run the
executor's fetch log never contains a URL twice. -/
theorem requestExecutor_atMostOnce :
    (∀ (cfg : ScanConfig) (env : HttpEnv) (s : ScanState) (u : String),
       u ∈ s.seen → requestURL cfg env s u = ((0, "", false), s)) ∧
    (∀ (cfg : ScanConfig) (env : HttpEnv) (s : ScanState) (u : String),
       u ∈ (requestURL cfg env s u).2.seen) ∧
    (∀ (cfg : ScanConfig) (env : HttpEnv) (fuel : Nat),
       (mainScan cfg env fuel).requestLog.Nodup) := by
  refine ⟨requestURL_skip, ?_, ?_⟩
  · intro cfg env s u
    rw [requestURL_seen]
    by_cases h : u ∈ s.seen
    · rw [if_pos h]; exact h
    · rw [if_neg h]; exact List.mem_cons_self u s.seen
  · intro cfg env fuel
    unfold mainScan
    dsimp only
    split <;> split
    · rw [preCheck_requestLog]
      exact List.nodup_nil
    · refine (runLoop_inv _ env seenInv ?_ fuel _ _ ⟨?_, ?_⟩).1
      · intro s' q' t' hP
        exact processTask_seenInv _ env s' q' t' hP
      · exact List.nodup_nil
      · intro v hv
        exact absurd hv (List.not_mem_nil v)
    · rw [preCheck_requestLog]
      exact List.nodup_nil
    · refine (runLoop_inv _ env seenInv ?_ fuel _ _ ⟨?_, ?_⟩).1
      · intro s' q' t' hP
        exact processTask_seenInv _ env s' q' t' hP
      · exact List.nodup_nil
      · intro v hv
        exact absurd hv (List.not_mem_nil v)

/-- Witness for C1: a seen URL is skipped with the state unchanged. -/
theorem requestExecutor_atMostOnce_witness :
    ("http://t/a" ∈ ({ initState with seen := ["http://t/a"] } : ScanState).seen) ∧
    requestURL (cfgTol 1) envLinear { initState with seen := ["http://t/a"] }
      "http://t/a" =
      ((0, "", false), { initState with seen := ["http://t/a"] }) :=
  ⟨by decide,
   requestExecutor_atMostOnce.1 (cfgTol 1) envLinear
     { initState with seen := ["http://t/a"] } "http://t/a" (by decide)⟩

/-! ## Claim C9: the prechecker bypasses the request executor -/

/-- The all-404 target used to exhibit a double fetch. -/
def env404 : HttpEnv := fun _ => some ⟨404, ""⟩

/-- A wordlist whose only word collides with a prechecker nonce. -/
def cfgNonce : ScanConfig :=
  { base := "http://t/", words := ["test123xyz"], maxDepth := 1,
    excluded := [404], recursive := false, maxQueueSize := 100 }

/-- C9: a precheck changes no scan state (seen set, hit counter, dedup
ledger, ancestry table, executor log, counters, queue trace) — only its own
fetch trace — and consequently there is a run in which the same URL is
fetched once by the prechecker and again by the request executor. -/
theorem precheck_frameEffect :
    (∀ (env : HttpEnv) (s : ScanState) (b p : String),
       (preCheckReflective env s b p).2.seen = s.seen ∧
       (preCheckReflective env s b p).2.hits = s.hits ∧
       (preCheckReflective env s b p).2.hashBest = s.hashBest ∧
       (preCheckReflective env s b p).2.contentAncestors = s.contentAncestors ∧
       (preCheckReflective env s b p).2.requestLog = s.requestLog ∧
       (preCheckReflective env s b p).2.totalTasks = s.totalTasks ∧
       (preCheckReflective env s b p).2.droppedTasks = s.droppedTasks ∧
       (preCheckReflective env s b p).2.pending = s.pending ∧
       (preCheckReflective env s b p).2.completed = s.completed ∧
       (preCheckReflective env s b p).2.enqueuedLog = s.enqueuedLog) ∧
    ("http://t/test123xyz" ∈ (mainScan cfgNonce env404 5).precheckLog ∧
     "http://t/test123xyz" ∈ (mainScan cfgNonce env404 5).requestLog) := by
  constructor
  · intro env s b p
    exact ⟨rfl, rfl, rfl, rfl, rfl, rfl, rfl, rfl, rfl, rfl⟩
  · exact ⟨by decide, by decide⟩

/-! ## Claim C10: every task is a bare probe -/

/-- C10: every task ever placed on the job queue — seeds and recursion
children alike, for any configuration, environment and fuel — carries
`withSlash = false`, so only bare URLs are probed, even though `buildURL`
can construct the trailing-slash variant. -/
theorem tasks_allBare :
    (∀ (cfg : ScanConfig) (env : HttpEnv) (fuel : Nat),
       ∀ c ∈ (mainScan cfg env fuel).enqueuedLog, c.withSlash = false) ∧
    buildURL "http://t/" "" "admin" true = some "http://t/admin/" := by
  constructor
  · intro cfg env fuel
    unfold mainScan
    dsimp only
    split <;> split
    · intro c hc
      rw [preCheck_enqueuedLog] at hc
      exact absurd hc (List.not_mem_nil c)
    · refine runLoop_inv _ env bareInv ?_ fuel _ _ ?_
      · intro s' q' t' hP
        exact processTask_bareInv _ env s' q' t' hP
      · intro c hc
        rcases List.mem_map.1 hc with ⟨w, -, rfl⟩
        rfl
    · intro c hc
      rw [preCheck_enqueuedLog] at hc
      exact absurd hc (List.not_mem_nil c)
    · refine runLoop_inv _ env bareInv ?_ fuel _ _ ?_
      · intro s' q' t' hP
        exact processTask_bareInv _ env s' q' t' hP
      · intro c hc
        rcases List.mem_map.1 hc with ⟨w, -, rfl⟩
        rfl
  · decide

/-- Witness for C10: a concrete seed task of a concrete run is in the
enqueue trace and is bare. -/
theorem tasks_allBare_witness :
    ((⟨"http://t/", "", "a", 0, false, 0⟩ : reqTask) ∈
      (mainScan (cfgTol 1) envLinear 20).enqueuedLog) ∧
    (⟨"http://t/", "", "a", 0, false, 0⟩ : reqTask).withSlash = false :=
  ⟨by decide,
   tasks_allBare.1 (cfgTol 1) envLinear 20 _ (by decide)⟩

/-! ## Claim C8: single-level two-word scenario -/

theorem processTask_nonrec (cfg : ScanConfig) (env : HttpEnv) (s : ScanState)
    (qlen : Nat) (t : reqTask) (hrec : cfg.recursive = false) (u : String)
    (hb : buildURL t.base t.pfx t.word t.withSlash = some u)
    (hmem : u ∉ s.seen) :
    (processTask cfg env s qlen t).2 = [] ∧
    (processTask cfg env s qlen t).1.seen = u :: s.seen ∧
    (processTask cfg env s qlen t).1.requestLog = s.requestLog ++ [u] ∧
    (processTask cfg env s qlen t).1.hits = s.hits + hitDelta cfg env u ∧
    (processTask cfg env s qlen t).1.totalTasks = s.totalTasks ∧
    (processTask cfg env s qlen t).1.droppedTasks = s.droppedTasks ∧
    (processTask cfg env s qlen t).1.enqueuedLog = s.enqueuedLog := by
  unfold processTask
  rw [hb]
  dsimp only
  have hmem0 : u ∉ ({ s with completed := s.completed + 1, pending := s.pending - 1 } : ScanState).seen := hmem
  have hse := requestURL_seen cfg env { s with completed := s.completed + 1, pending := s.pending - 1 } u
  rw [if_neg hmem0] at hse
  have hlog := requestURL_requestLog cfg env { s with completed := s.completed + 1, pending := s.pending - 1 } u
  rw [if_neg hmem0] at hlog
  have hhits := requestURL_hits cfg env { s with completed := s.completed + 1, pending := s.pending - 1 } u hmem0
  have hframe := requestURL_frame cfg env { s with completed := s.completed + 1, pending := s.pending - 1 } u
  split
  · exact ⟨rfl, hse, hlog, hhits, hframe.1, hframe.2.1, hframe.2.2.2.2.1⟩
  · have hnot : ¬(t.withSlash = false ∧ cfg.recursive = true) := by
      intro hcond
      rw [hrec] at hcond
      exact Bool.noConfusion hcond.2
    rw [if_neg hnot]
    have hrs := recordStep_frame (requestURL cfg env { s with completed := s.completed + 1, pending := s.pending - 1 } u).2 u (requestURL cfg env { s with completed := s.completed + 1, pending := s.pending - 1 } u).1.1 (requestURL cfg env { s with completed := s.completed + 1, pending := s.pending - 1 } u).1.2.1
    refine ⟨rfl, ?_, ?_, ?_, ?_, ?_, ?_⟩
    · rw [hrs.1]; exact hse
    · rw [hrs.2.1]; exact hlog
    · rw [hrs.2.2.1]; exact hhits
    · rw [hrs.2.2.2.1]; exact hframe.1
    · rw [hrs.2.2.2.2.1]; exact hframe.2.1
    · rw [hrs.2.2.2.2.2.2.2.1]; exact hframe.2.2.2.2.1

/-- The C8 configuration: two words, tolerance 1, default exclusion set,
recursion disabled. -/
def cfgTwoWords : ScanConfig :=
  { base := "http://t/", words := ["admin", "api"], maxDepth := 1,
    excluded := [404], recursive := false, maxQueueSize := 25000 }

/-- C8: with base `http://t/`, wordlist {admin, api}, tolerance 1 and
recursion disabled, any run (whatever the target answers, provided the
root precheck does not abort the scan) issues exactly the two bare word
probes `/admin` and `/api`, counts as hits exactly the responses whose
status is not 404, and never creates any child task. -/
theorem singleLevel_scenario (env : HttpEnv) (fuel : Nat)
    (hpc : reflectiveVerdict (precheckFetch env "http://t/" "").1 = false) :
    (mainScan cfgTwoWords env (fuel + 2)).requestLog =
      ["http://t/admin", "http://t/api"] ∧
    (mainScan cfgTwoWords env (fuel + 2)).hits =
      (["http://t/admin", "http://t/api"].filter (fun v =>
         match env v with
         | some r => decide (r.code ≠ 404)
         | none => false)).length ∧
    (mainScan cfgTwoWords env (fuel + 2)).totalTasks = 2 ∧
    (mainScan cfgTwoWords env (fuel + 2)).droppedTasks = 0 ∧
    (mainScan cfgTwoWords env (fuel + 2)).enqueuedLog =
      seedTasksOf "http://t/" ["admin", "api"] := by
  set tA : reqTask := ⟨"http://t/", "", "admin", 0, false, 0⟩ with htA
  set tB : reqTask := ⟨"http://t/", "", "api", 0, false, 0⟩ with htB
  set s0 : ScanState := { (preCheckReflective env initState "http://t/" "").2 with pending := 2, totalTasks := 2, enqueuedLog := [tA, tB] } with hs0
  have hmain : mainScan cfgTwoWords env (fuel + 2) =
      runLoop cfgTwoWords env (fuel + 2) s0 [tA, tB] := by
    unfold mainScan
    dsimp only
    rw [show (if goHasSfx cfgTwoWords.base "/" then cfgTwoWords.base
        else cfgTwoWords.base ++ "/") = "http://t/" from by decide]
    rw [show (preCheckReflective env initState "http://t/" "").1 = false from hpc]
    rw [if_neg (show ¬(false = true) from by decide)]
    rfl
  have h1 := processTask_nonrec cfgTwoWords env s0 1 tA rfl "http://t/admin"
    (by decide) (List.not_mem_nil _)
  set s1 : ScanState := (processTask cfgTwoWords env s0 1 tA).1 with hs1
  have hm2 : "http://t/api" ∉ s1.seen := by
    rw [h1.2.1]
    intro hx
    rcases List.mem_cons.1 hx with hx | hx
    · exact absurd hx (by decide)
    · exact absurd hx (List.not_mem_nil _)
  have h2 := processTask_nonrec cfgTwoWords env s1 0 tB rfl "http://t/api"
    (by decide) hm2
  have hrun : mainScan cfgTwoWords env (fuel + 2) =
      (processTask cfgTwoWords env s1 0 tB).1 := by
    rw [hmain]
    have e1 : runLoop cfgTwoWords env (fuel + 2) s0 [tA, tB] =
        runLoop cfgTwoWords env (fuel + 1) s1
          ([tB] ++ (processTask cfgTwoWords env s0 1 tA).2) := rfl
    rw [e1, h1.1, List.append_nil]
    have e2 : runLoop cfgTwoWords env (fuel + 1) s1 [tB] =
        runLoop cfgTwoWords env fuel (processTask cfgTwoWords env s1 0 tB).1
          ([] ++ (processTask cfgTwoWords env s1 0 tB).2) := rfl
    rw [e2, h2.1, List.append_nil]
    exact runLoop_nil cfgTwoWords env fuel _
  refine ⟨?_, ?_, ?_, ?_, ?_⟩
  · rw [hrun, h2.2.2.1, h1.2.2.1]
    rfl
  · rw [hrun, h2.2.2.2.1, h1.2.2.2.1]
    show 0 + hitDelta cfgTwoWords env "http://t/admin" +
        hitDelta cfgTwoWords env "http://t/api" = _
    rcases e1 : env "http://t/admin" with _ | r1 <;>
      rcases e2 : env "http://t/api" with _ | r2
    · simp [hitDelta, e1, e2, List.filter, cfgTwoWords]
    · by_cases hc2 : r2.code = 404 <;>
        simp [hitDelta, e1, e2, hc2, List.filter, cfgTwoWords]
    · by_cases hc1 : r1.code = 404 <;>
        simp [hitDelta, e1, e2, hc1, List.filter, cfgTwoWords]
    · by_cases hc1 : r1.code = 404 <;> by_cases hc2 : r2.code = 404 <;>
        simp [hitDelta, e1, e2, hc1, hc2, List.filter, cfgTwoWords]
  · rw [hrun, h2.2.2.2.2.1, h1.2.2.2.2.1]
  · rw [hrun, h2.2.2.2.2.2.1, h1.2.2.2.2.2.1]
    rfl
  · rw [hrun, h2.2.2.2.2.2.2, h1.2.2.2.2.2.2]
    rfl

/-- Witness for C8: an unreachable target (every request a transport
error) passes the root precheck vacuously, still issues both probes, and
scores zero hits. -/
theorem singleLevel_scenario_witness :
    reflectiveVerdict (precheckFetch (fun _ => none) "http://t/" "").1 = false ∧
    (mainScan cfgTwoWords (fun _ => none) 2).requestLog =
      ["http://t/admin", "http://t/api"] ∧
    (mainScan cfgTwoWords (fun _ => none) 2).hits =
      (["http://t/admin", "http://t/api"].filter (fun v =>
         match (fun (_ : String) => (none : Option GoResp)) v with
         | some r => decide (r.code ≠ 404)
         | none => false)).length ∧
    (mainScan cfgTwoWords (fun _ => none) 2).totalTasks = 2 ∧
    (mainScan cfgTwoWords (fun _ => none) 2).droppedTasks = 0 ∧
    (mainScan cfgTwoWords (fun _ => none) 2).enqueuedLog =
      seedTasksOf "http://t/" ["admin", "api"] :=
  ⟨by decide, singleLevel_scenario (fun _ => none) 0 (by decide)⟩
